import Mathlib

/-!
Verification of the e-commerce backend's core subsystem: the chainable
query-features utility (ApiFeatures: search / filter / pagination) used by the
product listing endpoint, and the review-aggregation logic of the product
controller (createProductReview / deleteReview), which maintains the
denormalized ratings and numOfReviews fields of a product.

The definitions below are a shallow embedding of the TypeScript source.
Machine numbers of the source are modeled as exact rationals (the values
involved are small integers and their quotients, far from any floating-point
edge), object ids as naturals (id comparison in the source goes through
toString, which is injective on ids), and the document store's query language
is given an explicit conjunctive matching semantics on documents.
-/

/- ===================== JavaScript numeric primitives ===================== -/

/-- Value of a list of decimal digit characters read as a natural number. -/
def digitsVal (cs : List Char) : Nat :=
  cs.foldl (fun a c => a * 10 + (c.toNat - 48)) 0

/-- Model of the JavaScript Number(string) conversion, restricted to the
string shapes that reach it in this code base: optional-sign decimal integer
literals; the empty string converts to 0; everything else is NaN, represented
as none. -/
def jsParseNum (s : String) : Option ℚ :=
  match s.data with
  | [] => some 0
  | '-' :: cs =>
      if cs.isEmpty then none
      else if cs.all Char.isDigit then some (-(digitsVal cs : ℚ)) else none
  | cs =>
      if cs.all Char.isDigit then some ((digitsVal cs : ℚ)) else none

/- ===================== the filter() keyword rewrite ===================== -/

/-- Word characters for the word-boundary regex used by ApiFeatures.filter,
which rewrites the bare words gt, gte, lt, lte in the serialized parameters. -/
def isWordChar (c : Char) : Bool := c.isAlphanum || c = '_'

/-- Replacement callback of the filter() rewrite: the word tokens gt, gte, lt
and lte receive a dollar prefix, every other word token is kept unchanged. -/
def rewriteWordToken (w : String) : String :=
  if w = "gt" ∨ w = "gte" ∨ w = "lt" ∨ w = "lte" then "$" ++ w else w

/-- One pass over a character list: maximal runs of word characters are
collected (reversed, in the first argument) and rewritten at every word
boundary, mirroring the global word-bounded regex replacement. -/
def rewriteAux : List Char → List Char → List Char
  | run, [] => (rewriteWordToken (String.mk run.reverse)).data
  | run, c :: cs =>
      if isWordChar c then rewriteAux (c :: run) cs
      else (rewriteWordToken (String.mk run.reverse)).data ++ c :: rewriteAux [] cs

/-- Effect of the serialize / replace / parse step of ApiFeatures.filter on one
string of the parameter structure (the replacement runs over the whole JSON
text, hence over keys and string values alike). -/
def rewriteStr (s : String) : String := String.mk (rewriteAux [] s.data)

/- ===================== query values and documents ===================== -/

/-- A decoded query-string value as this route receives it: a plain string, or
one level of bracket notation (price[gte]=100 decodes to an object of string
fields). Deeper nesting and array values do not occur on this interface. -/
inductive JVal where
  | str (s : String)
  | obj (fields : List (String × String))
deriving DecidableEq

/-- Lookup of a top-level key in decoded query parameters. -/
def lookupJ : List (String × JVal) → String → Option JVal
  | [], _ => none
  | (k, v) :: rest, key => if k = key then some v else lookupJ rest key

/-- Lookup in a string-valued object (the fields of a bracket object or of an
operator object). -/
def lookupS : List (String × String) → String → Option String
  | [], _ => none
  | (k, v) :: rest, key => if k = key then some v else lookupS rest key

/-- A stored field value of a product document; the fields the listing route
conditions on are numbers (price, stock, ratings) or strings (name,
category). -/
inductive BVal where
  | num (q : ℚ)
  | bstr (s : String)
deriving DecidableEq

/-- Field lookup in a document. -/
def lookupField : List (String × BVal) → String → Option BVal
  | [], _ => none
  | (k, v) :: rest, key => if k = key then some v else lookupField rest key

/- ===================== regular-expression matching ===================== -/

/-- The regular-expression metacharacters of the store's pattern syntax. -/
def regexMetachars : List Char :=
  ['.', '*', '+', '?', '(', ')', '[', ']', '\x7b', '\x7d', '|', '^', '$', '\\']

/-- Model of the document store's regular-expression patterns, faithful for
the patterns the theorems below quantify over: literal characters plus the
dot wildcard (which matches any character). Patterns using other
metacharacters are outside the modeled fragment, and every statement about a
metacharacter-free keyword keeps clear of them. -/
inductive PatTok where
  | dot
  | lit (c : Char)
deriving DecidableEq

/-- A keyword string read as a pattern of the modeled fragment. -/
def parsePat (s : String) : List PatTok :=
  s.data.map fun c => if c = '.' then PatTok.dot else PatTok.lit c

/-- One pattern token against one character, optionally case-insensitive. -/
def tokMatch (ci : Bool) : PatTok → Char → Bool
  | PatTok.dot, _ => true
  | PatTok.lit a, c => if ci then a.toLower == c.toLower else a == c

/-- The pattern matches at the very start of the character list. -/
def matchHere (ci : Bool) : List PatTok → List Char → Bool
  | [], _ => true
  | _ :: _, [] => false
  | t :: ts, c :: cs => tokMatch ci t c && matchHere ci ts cs

/-- Unanchored search: the pattern matches starting at some position. -/
def regexFind (ci : Bool) (pat : List PatTok) : List Char → Bool
  | [] => matchHere ci pat []
  | c :: cs => matchHere ci pat (c :: cs) || regexFind ci pat cs

/- ===================== condition matching semantics ===================== -/

/-- An object key beginning with a dollar marks an operator object. -/
def isDollarKey (k : String) : Bool :=
  match k.data with
  | '$' :: _ => true
  | _ => false

/-- The case-insensitive flag: an options sibling containing the letter i. -/
def hasCIOption (ops : List (String × String)) : Bool :=
  match lookupS ops "$options" with
  | some o => o.data.contains 'i'
  | none => false

/-- One operator of an operator object evaluated at a stored field value.
String bounds on numeric fields are cast to numbers, as the object mapper
casts query values to the schema type of the path; an uncastable bound
matches nothing. -/
def evalOp (fv : BVal) (ops : List (String × String)) (op : String) (v : String) : Bool :=
  if op = "$options" then true
  else if op = "$regex" then
    match fv with
    | BVal.bstr s => regexFind (hasCIOption ops) (parsePat v) s.data
    | BVal.num _ => false
  else
    match fv with
    | BVal.num q =>
      match jsParseNum v with
      | some x =>
        if op = "$gt" then decide (x < q)
        else if op = "$gte" then decide (x ≤ q)
        else if op = "$lt" then decide (q < x)
        else if op = "$lte" then decide (q ≤ x)
        else false
      | none => false
    | BVal.bstr _ => false

/-- Equality condition at a stored field: string fields compare as strings,
numeric fields compare after the schema cast of the query value. -/
def eqMatch (fv : BVal) (s : String) : Bool :=
  match fv with
  | BVal.bstr t => t == s
  | BVal.num q =>
    match jsParseNum s with
    | some x => decide (x = q)
    | none => false

/-- A condition value evaluated at a stored field: a string is an equality
condition; an object whose first key starts with a dollar is an operator
object, all of whose operators must hold; any other object can never equal a
scalar field. -/
def matchVal (fv : BVal) : JVal → Bool
  | JVal.str s => eqMatch fv s
  | JVal.obj [] => false
  | JVal.obj ((k, v) :: rest) =>
      if isDollarKey k then
        ((k, v) :: rest).all fun kv => evalOp fv ((k, v) :: rest) kv.1 kv.2
      else false

/-- Conjunctive match of one find() condition object against a document; the
documents modeled carry every field a condition mentions. -/
def matchCond (cond : List (String × JVal)) (d : List (String × BVal)) : Bool :=
  cond.all fun kv =>
    match lookupField d kv.1 with
    | some fv => matchVal fv kv.2
    | none => false

/-- The state a chainable collection query accumulates: find() conditions
(conjunctive), a limit and a skip. -/
structure MongoQuery where
  conds : List (List (String × JVal))
  qlimit : Option ℚ
  qskip : Option ℚ
deriving DecidableEq

/-- A query with no condition, no limit and no skip. -/
def emptyQuery : MongoQuery := { conds := [], qlimit := none, qskip := none }

/-- A document is in the matching set of the accumulated query iff it
satisfies every accumulated condition; limit and skip cut offsets of the
materialized result, not membership. -/
def queryMatches (q : MongoQuery) (d : List (String × BVal)) : Bool :=
  q.conds.all fun c => matchCond c d

/- ===================== ApiFeatures ===================== -/

/-- The query-features utility: a collection query plus the raw decoded query
parameters. -/
structure ApiFeatures where
  query : MongoQuery
  queryStr : List (String × JVal)
deriving DecidableEq

/-- ApiFeatures.search: a truthy keyword (present non-empty string; the route
interface types the keyword parameter as a string) adds the condition
mapping name to a case-insensitive regex on the keyword; otherwise an empty
find() call adds no constraint. -/
def ApiFeatures.search (f : ApiFeatures) : ApiFeatures :=
  let kw :=
    match lookupJ f.queryStr "keyword" with
    | some (JVal.str s) =>
        if s = "" then []
        else [("name", JVal.obj [("$regex", s), ("$options", "i")])]
    | _ => []
  { f with query := { f.query with conds := f.query.conds ++ [kw] } }

/-- The reserved keys removed by filter(). -/
def removeFields : List String := ["keyword", "page", "limit"]

/-- The rewrite step of filter() applied to one parameter value: the JSON
round trip rewrites word-bounded gt/gte/lt/lte everywhere in the text, so both
nested keys and string values are rewritten. -/
def rewriteJVal : JVal → JVal
  | JVal.str s => JVal.str (rewriteStr s)
  | JVal.obj fs => JVal.obj (fs.map fun kv => (rewriteStr kv.1, rewriteStr kv.2))

/-- The condition object built by ApiFeatures.filter: the parameters with
keyword, page and limit removed, then the serialize / word-rewrite / parse
step over keys and values. -/
def filterCond (qs : List (String × JVal)) : List (String × JVal) :=
  (qs.filter fun kv => !(removeFields.contains kv.1)).map fun kv =>
    (rewriteStr kv.1, rewriteJVal kv.2)

/-- ApiFeatures.filter: the rewritten remaining parameters are added as one
more find() condition. -/
def ApiFeatures.filter (f : ApiFeatures) : ApiFeatures :=
  { f with query := { f.query with conds := f.query.conds ++ [filterCond f.queryStr] } }

/-- Model of Number() applied to a possibly missing query parameter: a missing
parameter (undefined) and a bracket object are NaN. -/
def jsNumOfParam : Option JVal → Option ℚ
  | some (JVal.str s) => jsParseNum s
  | some (JVal.obj _) => none
  | none => none

/-- ApiFeatures.pagination: currentPage is Number(page) with the or-default 1
(NaN and 0 are falsy), skip is resultPerPage times (currentPage - 1), and the
limit is resultPerPage. -/
def ApiFeatures.pagination (f : ApiFeatures) (resultPerPage : ℚ) : ApiFeatures :=
  let currentPage : ℚ :=
    match jsNumOfParam (lookupJ f.queryStr "page") with
    | some q => if q = 0 then 1 else q
    | none => 1
  let skip := resultPerPage * (currentPage - 1)
  { f with query := { f.query with qlimit := some resultPerPage, qskip := some skip } }

/- ===================== review aggregation (numeric level) ===================== -/

/-- A review subdocument; rid models the generated subdocument id, user the
authoring user's id (the source compares both through toString, which is
injective on ids). At this level the rating is already numeric: the request
value after the Number coercion. The JsVal-level model further below keeps
the uncoerced request value. -/
structure Review where
  rid : Nat
  user : Nat
  name : String
  rating : ℚ
  comment : String
deriving DecidableEq

/-- The review-related state of a product document. -/
structure Product where
  reviews : List Review
  ratings : ℚ
  numOfReviews : Nat
deriving DecidableEq

/-- A product with no reviews, as created. -/
def emptyProduct : Product := { reviews := [], ratings := 0, numOfReviews := 0 }

/-- The in-place rewrite of the update branch of createProductReview: the
matching user's review receives the submitted rating and comment, every other
review is left alone. -/
def updUser (userId : Nat) (rating : ℚ) (comment : String) (rev : Review) : Review :=
  if rev.user == userId then { rev with rating := rating, comment := comment } else rev

/-- createProductReview after the product was found: if the user already has a
review, rewrite its rating and comment in place (numOfReviews untouched);
otherwise push a fresh review (newId is the id the mapper generates) and set
numOfReviews to the new length; then recompute ratings as the accumulated sum
of all stored ratings divided by the list length. -/
def createProductReview (newId userId : Nat) (userName : String) (rating : ℚ)
    (comment : String) (p : Product) : Product :=
  let isReviewed := p.reviews.any fun rev => rev.user == userId
  let reviews :=
    if isReviewed then
      p.reviews.map (updUser userId rating comment)
    else
      p.reviews ++ [{ rid := newId, user := userId, name := userName,
                      rating := rating, comment := comment }]
  let numOfReviews := if isReviewed then p.numOfReviews else reviews.length
  let avg := (reviews.map Review.rating).sum
  { reviews := reviews, ratings := avg / reviews.length, numOfReviews := numOfReviews }

/-- deleteReview after both ids were present and the product was found: drop
the review whose id equals reviewId, recompute the accumulated average with an
explicit zero for an empty remaining list, set the count, and write the three
fields back. -/
def deleteReview (reviewId : Nat) (p : Product) : Product :=
  let reviews := p.reviews.filter fun rev => rev.rid != reviewId
  let avg := (reviews.map Review.rating).sum
  let ratings : ℚ := if reviews.length == 0 then 0 else avg / reviews.length
  { reviews := reviews, ratings := ratings, numOfReviews := reviews.length }

/-- Arithmetic mean of the ratings of a review list. -/
def meanRatings (l : List Review) : ℚ := (l.map Review.rating).sum / l.length

/-- Number of reviews a given user holds in a review list. -/
def countUser (l : List Review) (u : Nat) : Nat :=
  (l.filter fun rev => rev.user == u).length

/- ===================== review aggregation (JavaScript-value level) ===================== -/

/-- A JavaScript value as it flows through the review handler: the rating
taken from the request body can be a number or a string (or NaN after a failed
numeric coercion). -/
inductive JsVal where
  | num (q : ℚ)
  | nan
  | vstr (s : String)
deriving DecidableEq

/-- JavaScript ToString restricted to the values arising here; an
integer-valued number prints in decimal (non-integral rationals do not occur
on the traced paths). -/
def jsToString : JsVal → String
  | JsVal.num q => if q.den == 1 then toString q.num else toString q.num ++ "/" ++ toString q.den
  | JsVal.nan => "NaN"
  | JsVal.vstr s => s

/-- JavaScript ToNumber. -/
def jsToNum : JsVal → JsVal
  | JsVal.num q => JsVal.num q
  | JsVal.nan => JsVal.nan
  | JsVal.vstr s =>
    match jsParseNum s with
    | some q => JsVal.num q
    | none => JsVal.nan

/-- The JavaScript + operator on these values: string concatenation as soon as
one side is a string, numeric addition with NaN propagation otherwise. -/
def jsAdd (a b : JsVal) : JsVal :=
  match a, b with
  | JsVal.vstr s, _ => JsVal.vstr (s ++ jsToString b)
  | _, JsVal.vstr s => JsVal.vstr (jsToString a ++ s)
  | JsVal.num x, JsVal.num y => JsVal.num (x + y)
  | _, _ => JsVal.nan

/-- The JavaScript / operator with a natural-number divisor, as used on
avg / reviews.length; the divisor is a positive length on every traced path. -/
def jsDiv (a : JsVal) (n : Nat) : JsVal :=
  match jsToNum a with
  | JsVal.num q => JsVal.num (q / n)
  | _ => JsVal.nan

/-- A review holding its rating as the JavaScript value that was stored. -/
structure JsReview where
  user : Nat
  name : String
  rating : JsVal
  comment : String
deriving DecidableEq

/-- The review-related product state at JavaScript-value level. -/
structure JsProduct where
  reviews : List JsReview
  ratings : JsVal
  numOfReviews : Nat
deriving DecidableEq

/-- The update branch at JavaScript-value level. The controller assigns the
raw request value (rev.rating = rating, no explicit Number call), but the
rating path of the reviews subdocument array is Number-typed in the schema,
and the mapper casts a value on assignment to a typed path — the same schema
cast evalOp models for query bounds. So the stored value is the cast number,
modeled by jsToNum for castable inputs. -/
def updUserJs (userId : Nat) (rating : JsVal) (comment : String) (rev : JsReview) : JsReview :=
  if rev.user == userId then { rev with rating := jsToNum rating, comment := comment } else rev

/-- createProductReview at JavaScript-value level: the pushed review stores
Number(rating) explicitly, the in-place update stores the value after the
mapper's schema cast on the Number-typed rating path (see updUserJs), and the
average accumulates with += over the stored values before dividing by the
length. -/
def createProductReviewJs (userId : Nat) (userName : String) (rating : JsVal)
    (comment : String) (p : JsProduct) : JsProduct :=
  let isReviewed := p.reviews.any fun rev => rev.user == userId
  let reviews :=
    if isReviewed then
      p.reviews.map (updUserJs userId rating comment)
    else
      p.reviews ++ [{ user := userId, name := userName,
                      rating := jsToNum rating, comment := comment }]
  let numOfReviews := if isReviewed then p.numOfReviews else reviews.length
  let avg := reviews.foldl (fun a rev => jsAdd a rev.rating) (JsVal.num 0)
  { reviews := reviews, ratings := jsDiv avg reviews.length, numOfReviews := numOfReviews }

/- ===================== spec-side notions ===================== -/

/-- The first list is a case-insensitive prefix of the second. -/
def beginsWithCI : List Char → List Char → Bool
  | [], _ => true
  | _ :: _, [] => false
  | a :: as1, b :: bs => (a.toLower == b.toLower) && beginsWithCI as1 bs

/-- The first list occurs case-insensitively as a contiguous substring of the
second. -/
def containsCI (kw : List Char) : List Char → Bool
  | [] => beginsWithCI kw []
  | b :: bs => beginsWithCI kw (b :: bs) || containsCI kw bs

/-- Arithmetic mean of a list of rationals. -/
def meanQ (l : List ℚ) : ℚ := l.sum / l.length

/- ===================== concrete fixtures ===================== -/

/-- A review by user 1 with rating 5. -/
def rev1 : Review := { rid := 1, user := 1, name := "u1", rating := 5, comment := "a" }

/-- A review by user 2 with rating 3. -/
def rev2 : Review := { rid := 2, user := 2, name := "u2", rating := 3, comment := "b" }

/-- A consistent product carrying the two reviews above. -/
def prodTwo : Product := { reviews := [rev1, rev2], ratings := 4, numOfReviews := 2 }

/- ===================== C1 ===================== -/

/-- C1: after every review upsert, and after every review removal that leaves
a non-empty list, the stored ratings field equals the exact arithmetic mean of
the ratings of the resulting review list; in particular ratings 5, 3, 4 give
a stored rating of 4, and ratings 5, 3 give a stored rating of 4 as well. -/
theorem C1_rating_is_exact_mean :
    (∀ (newId userId : Nat) (userName : String) (rating : ℚ) (comment : String) (p : Product),
      (createProductReview newId userId userName rating comment p).ratings
        = meanRatings (createProductReview newId userId userName rating comment p).reviews)
    ∧ (∀ (reviewId : Nat) (p : Product), (deleteReview reviewId p).reviews ≠ [] →
      (deleteReview reviewId p).ratings
        = meanRatings (deleteReview reviewId p).reviews)
    ∧ (createProductReview 3 3 "u3" 4 "c"
        (createProductReview 2 2 "u2" 3 "b"
          (createProductReview 1 1 "u1" 5 "a" emptyProduct))).ratings = 4
    ∧ (createProductReview 2 2 "u2" 3 "b"
        (createProductReview 1 1 "u1" 5 "a" emptyProduct)).ratings = 4
    ∧ (deleteReview 3
        (createProductReview 3 3 "u3" 4 "c"
          (createProductReview 2 2 "u2" 3 "b"
            (createProductReview 1 1 "u1" 5 "a" emptyProduct)))).ratings = 4 := by
  refine ⟨fun newId userId userName rating comment p => rfl, ?_, ?_, ?_, ?_⟩
  · intro reviewId p h
    have hlen : (p.reviews.filter fun rev => rev.rid != reviewId).length ≠ 0 := by
      simpa [deleteReview, List.length_eq_zero] using h
    simp [deleteReview, meanRatings, hlen]
  · norm_num [createProductReview, emptyProduct]
  · norm_num [createProductReview, emptyProduct]
  · norm_num [createProductReview, deleteReview, emptyProduct]

/-- Witness for C1: deleting review 1 from the two-review product leaves a
non-empty list whose mean the stored rating equals. -/
theorem C1_rating_is_exact_mean_witness :
    (deleteReview 1 prodTwo).reviews ≠ []
    ∧ (deleteReview 1 prodTwo).ratings = meanRatings (deleteReview 1 prodTwo).reviews := by
  refine ⟨?_, C1_rating_is_exact_mean.2.1 1 prodTwo ?_⟩ <;> decide

/- ===================== C8 ===================== -/

/-- C8: deleting the only review of a product by its id leaves an empty review
list, a count of zero, and an explicit zero stored rating (the empty branch is
taken instead of the division). -/
theorem C8_delete_last_review_zeroes (p : Product) (rev : Review)
    (h : p.reviews = [rev]) :
    (deleteReview rev.rid p).reviews = []
    ∧ (deleteReview rev.rid p).numOfReviews = 0
    ∧ (deleteReview rev.rid p).ratings = 0 := by
  simp [deleteReview, h]

/-- Witness for C8 at a one-review product. -/
theorem C8_delete_last_review_zeroes_witness :
    (deleteReview rev1.rid { reviews := [rev1], ratings := 5, numOfReviews := 1 }).reviews = []
    ∧ (deleteReview rev1.rid { reviews := [rev1], ratings := 5, numOfReviews := 1 }).numOfReviews = 0
    ∧ (deleteReview rev1.rid { reviews := [rev1], ratings := 5, numOfReviews := 1 }).ratings = 0 :=
  C8_delete_last_review_zeroes { reviews := [rev1], ratings := 5, numOfReviews := 1 } rev1 rfl

/- ===================== C9 ===================== -/

/-- C9: on a product whose stored aggregates are consistent with its review
list, deleting a review id that matches no entry is a complete no-op: the
review list, the count and the stored rating all survive unchanged. -/
theorem C9_delete_missing_review_noop (p : Product) (reviewId : Nat)
    (hid : ∀ rev ∈ p.reviews, rev.rid ≠ reviewId)
    (hcount : p.numOfReviews = p.reviews.length)
    (hrating : p.ratings = if p.reviews.length = 0 then 0 else meanRatings p.reviews) :
    deleteReview reviewId p = p := by
  have hf : (p.reviews.filter fun rev => rev.rid != reviewId) = p.reviews := by
    rw [List.filter_eq_self]
    intro a ha
    simpa using hid a ha
  cases p with
  | mk reviews ratings numOfReviews =>
    simp only [deleteReview, hf]
    simp only at hcount hrating
    by_cases hz : reviews.length = 0
    · simp [hz, hrating, hcount, Product.mk.injEq]
    · simp [hz, hrating, hcount, Product.mk.injEq, meanRatings]

/-- Witness for C9: review id 99 matches nothing in the two-review product. -/
theorem C9_delete_missing_review_noop_witness :
    deleteReview 99 prodTwo = prodTwo := by
  apply C9_delete_missing_review_noop
  · decide
  · rfl
  · norm_num [prodTwo, meanRatings, rev1, rev2]
/- ===================== C2 ===================== -/

/-- The in-place rewrite never changes a review's author. -/
theorem updUser_user (userId : Nat) (rating : ℚ) (comment : String) (rev : Review) :
    (updUser userId rating comment rev).user = rev.user := by
  by_cases h : (rev.user == userId) = true <;> simp [updUser, h]

/-- The in-place rewrite leaves every per-user review count unchanged. -/
theorem countUser_map_updUser (l : List Review) (userId : Nat) (rating : ℚ)
    (comment : String) (u : Nat) :
    countUser (l.map (updUser userId rating comment)) u = countUser l u := by
  induction l with
  | nil => rfl
  | cons hd tl ih =>
    simp only [List.map_cons, countUser, List.filter_cons, updUser_user]
    by_cases h : (hd.user == u) = true
    · simpa [countUser, h] using ih
    · simpa [countUser, h] using ih

/-- Appending one review adds one to its author's count and nothing to any
other count. -/
theorem countUser_append_one (l : List Review) (rev : Review) (u : Nat) :
    countUser (l ++ [rev]) u = countUser l u + (if rev.user == u then 1 else 0) := by
  by_cases h : (rev.user == u) = true <;>
    simp [countUser, List.filter_append, List.filter_cons, h]

/-- A user absent from every review of a list has count zero there. -/
theorem countUser_eq_zero (l : List Review) (u : Nat)
    (h : ∀ rev ∈ l, rev.user ≠ u) : countUser l u = 0 := by
  simp only [countUser, List.length_eq_zero, List.filter_eq_nil_iff]
  intro a ha
  simpa using h a ha

/-- A user some review of a list belongs to has positive count there. -/
theorem countUser_pos (l : List Review) (u : Nat)
    (h : ∃ rev ∈ l, rev.user = u) : 1 ≤ countUser l u := by
  obtain ⟨rev, hmem, hu⟩ := h
  have : rev ∈ l.filter fun rv => rv.user == u := by
    simp [List.mem_filter, hmem, hu]
  simpa [countUser, Nat.succ_le, List.length_pos] using List.ne_nil_of_mem this

/-- C2: createProductReview preserves the at-most-one-review-per-user
invariant; when the submitting user already has a review, the entry is
rewritten in place: the list keeps its length, the user still has exactly one
review, the stored count is untouched, and the user's review now carries the
new rating and comment. -/
theorem C2_upsert_one_review_per_user (newId userId : Nat) (userName : String)
    (rating : ℚ) (comment : String) (p : Product)
    (hinv : ∀ u, countUser p.reviews u ≤ 1) :
    (∀ u, countUser (createProductReview newId userId userName rating comment p).reviews u ≤ 1)
    ∧ ((∃ rev ∈ p.reviews, rev.user = userId) →
        (createProductReview newId userId userName rating comment p).reviews.length
            = p.reviews.length
        ∧ countUser (createProductReview newId userId userName rating comment p).reviews userId = 1
        ∧ (createProductReview newId userId userName rating comment p).numOfReviews
            = p.numOfReviews
        ∧ ∀ rev ∈ (createProductReview newId userId userName rating comment p).reviews,
            rev.user = userId → rev.rating = rating ∧ rev.comment = comment) := by
  by_cases hR : (p.reviews.any fun rev => rev.user == userId) = true
  · constructor
    · intro u
      simpa [createProductReview, hR, countUser_map_updUser] using hinv u
    · intro hex
      refine ⟨?_, ?_, ?_, ?_⟩
      · simp [createProductReview, hR]
      · have h1 : countUser (createProductReview newId userId userName rating comment p).reviews
            userId = countUser p.reviews userId := by
          simp [createProductReview, hR, countUser_map_updUser]
        have h2 := countUser_pos p.reviews userId hex
        have h3 := hinv userId
        omega
      · simp [createProductReview, hR]
      · intro rev hmem hu
        simp only [createProductReview, hR, if_true, List.mem_map] at hmem
        obtain ⟨orig, _, heq⟩ := hmem
        by_cases ho : (orig.user == userId) = true
        · rw [← heq]
          simp [updUser, ho]
        · exfalso
          rw [← heq, updUser_user] at hu
          simp [updUser, ho] at heq
          exact absurd (by simpa using hu) (by simpa using ho)
  · constructor
    · intro u
      have habs : ∀ rev ∈ p.reviews, rev.user ≠ userId := by
        intro rev hmem heq
        exact hR (List.any_eq_true.mpr ⟨rev, hmem, by simpa using heq⟩)
      by_cases hu : u = userId
      · subst hu
        simp [createProductReview, hR, countUser_append_one, countUser_eq_zero _ _ habs]
      · have hne : (userId == u) = false := by simpa using fun h => hu h.symm
        simp [createProductReview, hR, countUser_append_one, hne]
        exact hinv u
    · intro hex
      exfalso
      obtain ⟨rev, hmem, hu⟩ := hex
      exact hR (List.any_eq_true.mpr ⟨rev, hmem, by simpa using hu⟩)

/-- The two-review product satisfies the one-review-per-user invariant. -/
theorem prodTwo_inv : ∀ u, countUser prodTwo.reviews u ≤ 1 := by
  intro u
  by_cases h1 : ((1:Nat) == u) = true <;> by_cases h2 : ((2:Nat) == u) = true
  · exfalso
    simp at h1 h2
    omega
  all_goals simp [countUser, prodTwo, rev1, rev2, List.filter_cons, h1, h2]

/-- Witness for C2: user 2 submits a second review on the two-review product;
one review for user 2 remains, the length and stored count stay 2. -/
theorem C2_upsert_one_review_per_user_witness :
    countUser (createProductReview 9 2 "u2" 2 "x" prodTwo).reviews 2 = 1
    ∧ (createProductReview 9 2 "u2" 2 "x" prodTwo).reviews.length = 2
    ∧ (createProductReview 9 2 "u2" 2 "x" prodTwo).numOfReviews = 2
    ∧ countUser (createProductReview 9 2 "u2" 2 "x" prodTwo).reviews 1 ≤ 1 := by
  have h := C2_upsert_one_review_per_user 9 2 "u2" 2 "x" prodTwo prodTwo_inv
  have h2 := h.2 ⟨rev2, by simp [prodTwo], rfl⟩
  exact ⟨h2.2.1, h2.1, h2.2.2.1, h.1 1⟩

/- ===================== C4 ===================== -/

/-- A parameter mapping carrying only a page value. -/
def pageQS (s : String) : List (String × JVal) := [("page", JVal.str s)]

/-- Counterexample to C4: with the positive page size 5 and the page parameter
"0", pagination computes skip 0, not a negative skip — Number("0") is 0, which
is falsy, so the or-default turns page 0 into page 1. -/
theorem C4_counterexample_page_zero :
    (0:ℚ) < 5
    ∧ ((ApiFeatures.mk emptyQuery (pageQS "0")).pagination 5).query.qskip = some 0
    ∧ ¬ ∃ sk : ℚ, ((ApiFeatures.mk emptyQuery (pageQS "0")).pagination 5).query.qskip = some sk
        ∧ sk < 0 := by
  have h : ((ApiFeatures.mk emptyQuery (pageQS "0")).pagination 5).query.qskip = some 0 := by
    have h0 : jsNumOfParam (lookupJ (pageQS "0") "page") = some 0 := by decide
    simp [ApiFeatures.pagination, h0]
  refine ⟨by norm_num, h, ?_⟩
  rintro ⟨sk, hsk, hneg⟩
  rw [h] at hsk
  have : sk = 0 := by simpa using hsk.symm
  rw [this] at hneg
  exact absurd hneg (by norm_num)

/-- C4 amended: a page parameter that parses to a negative number does produce
a negative skip (resultPerPage times (page - 1)), but a page parameter of "0"
is falsy after Number(), is replaced by the default 1, and produces skip 0. -/
theorem C4_amended_negative_page (resultPerPage : ℚ) (hrp : 0 < resultPerPage)
    (mq : MongoQuery) (qs : List (String × JVal)) :
    (∀ (s : String) (n : ℚ), lookupJ qs "page" = some (JVal.str s) →
      jsParseNum s = some n → n < 0 →
      ((ApiFeatures.mk mq qs).pagination resultPerPage).query.qskip
          = some (resultPerPage * (n - 1))
        ∧ resultPerPage * (n - 1) < 0)
    ∧ (lookupJ qs "page" = some (JVal.str "0") →
      ((ApiFeatures.mk mq qs).pagination resultPerPage).query.qskip = some 0) := by
  constructor
  · intro s n hpage hparse hneg
    have hnz : ¬ n = 0 := by intro h; rw [h] at hneg; exact absurd hneg (by norm_num)
    constructor
    · simp [ApiFeatures.pagination, jsNumOfParam, hpage, hparse, hnz]
    · exact mul_neg_of_pos_of_neg hrp (by linarith)
  · intro hpage
    have hparse : jsParseNum "0" = some 0 := by decide
    simp [ApiFeatures.pagination, jsNumOfParam, hpage, hparse]

/-- Witness for the amended C4: page "-2" with page size 5 gives skip -15,
and page "0" gives skip 0. -/
theorem C4_amended_negative_page_witness :
    ((ApiFeatures.mk emptyQuery (pageQS "-2")).pagination 5).query.qskip = some (-15)
    ∧ ((ApiFeatures.mk emptyQuery (pageQS "0")).pagination 5).query.qskip = some 0 := by
  have h := C4_amended_negative_page 5 (by norm_num) emptyQuery (pageQS "-2")
  have h1 := (h.1 "-2" (-2) rfl (by decide) (by norm_num)).1
  have h2 := (C4_amended_negative_page 5 (by norm_num) emptyQuery (pageQS "0")).2 rfl
  refine ⟨?_, h2⟩
  rw [h1]
  norm_num

/- ===================== C6 ===================== -/

/-- Counterexample to C6: with page size 8 and the page parameter "0" — a
numeric page value, so the claim's formula demands skip 8 * (0 - 1) = -8 —
the code's or-default treats the falsy 0 as page 1 and computes skip 0. -/
theorem C6_counterexample_page_zero_formula :
    ((ApiFeatures.mk emptyQuery (pageQS "0")).pagination 8).query.qskip = some 0
    ∧ ¬ ((ApiFeatures.mk emptyQuery (pageQS "0")).pagination 8).query.qskip
        = some ((8:ℚ) * (0 - 1)) := by
  have h0 : jsNumOfParam (lookupJ (pageQS "0") "page") = some 0 := by decide
  have h : ((ApiFeatures.mk emptyQuery (pageQS "0")).pagination 8).query.qskip = some 0 := by
    simp [ApiFeatures.pagination, h0]
  refine ⟨h, ?_⟩
  rw [h]
  intro hc
  rw [Option.some_inj] at hc
  norm_num at hc

/-- C6 amended: pagination applies skip resultPerPage * (currentPage - 1) and
limit resultPerPage, where currentPage is the numeric page parameter with
default 1 for a missing, non-numeric, or zero page (Number of "0" is 0, which
is falsy for the or-default): page "3" with size 5 skips 10 and limits to 5,
and size 8 with no page key, page "abc", or page "0" yields the same query as
page "1", with skip 0. -/
theorem C6_pagination_offset_and_default :
    (∀ (resultPerPage : ℚ) (mq : MongoQuery) (qs : List (String × JVal)) (s : String) (n : ℚ),
      lookupJ qs "page" = some (JVal.str s) → jsParseNum s = some n → ¬ n = 0 →
      ((ApiFeatures.mk mq qs).pagination resultPerPage).query.qskip
          = some (resultPerPage * (n - 1))
        ∧ ((ApiFeatures.mk mq qs).pagination resultPerPage).query.qlimit = some resultPerPage)
    ∧ (∀ (resultPerPage : ℚ) (mq : MongoQuery) (qs : List (String × JVal)) (s : String),
      lookupJ qs "page" = some (JVal.str s) → jsParseNum s = some 0 →
      ((ApiFeatures.mk mq qs).pagination resultPerPage).query
        = ((ApiFeatures.mk mq (pageQS "1")).pagination resultPerPage).query)
    ∧ (∀ (resultPerPage : ℚ) (mq : MongoQuery) (qs : List (String × JVal)),
      jsNumOfParam (lookupJ qs "page") = none →
      ((ApiFeatures.mk mq qs).pagination resultPerPage).query
        = ((ApiFeatures.mk mq (pageQS "1")).pagination resultPerPage).query)
    ∧ ((ApiFeatures.mk emptyQuery (pageQS "3")).pagination 5).query.qskip = some 10
    ∧ ((ApiFeatures.mk emptyQuery (pageQS "3")).pagination 5).query.qlimit = some 5
    ∧ ((ApiFeatures.mk emptyQuery []).pagination 8).query
        = ((ApiFeatures.mk emptyQuery (pageQS "1")).pagination 8).query
    ∧ ((ApiFeatures.mk emptyQuery (pageQS "abc")).pagination 8).query
        = ((ApiFeatures.mk emptyQuery (pageQS "1")).pagination 8).query
    ∧ ((ApiFeatures.mk emptyQuery (pageQS "0")).pagination 8).query
        = ((ApiFeatures.mk emptyQuery (pageQS "1")).pagination 8).query
    ∧ ((ApiFeatures.mk emptyQuery (pageQS "1")).pagination 8).query.qskip = some 0 := by
  have hone : jsNumOfParam (lookupJ (pageQS "1") "page") = some 1 := by decide
  refine ⟨?_, ?_, ?_, ?_, ?_, ?_, ?_, ?_, ?_⟩
  · intro resultPerPage mq qs s n hpage hparse hnz
    constructor <;> simp [ApiFeatures.pagination, jsNumOfParam, hpage, hparse, hnz]
  · intro resultPerPage mq qs s hpage hparse
    have hl : jsNumOfParam (lookupJ qs "page") = some 0 := by
      rw [hpage]
      simpa [jsNumOfParam] using hparse
    simp [ApiFeatures.pagination, hl, hone]
  · intro resultPerPage mq qs hnone
    simp [ApiFeatures.pagination, hnone, hone]
  · have h3 : jsNumOfParam (lookupJ (pageQS "3") "page") = some 3 := by decide
    rw [show ((ApiFeatures.mk emptyQuery (pageQS "3")).pagination 5).query.qskip
        = some (5 * ((3:ℚ) - 1)) by simp [ApiFeatures.pagination, h3]]
    norm_num
  · have h3 : jsNumOfParam (lookupJ (pageQS "3") "page") = some 3 := by decide
    simp [ApiFeatures.pagination, h3]
  · have habs : jsNumOfParam (lookupJ ([] : List (String × JVal)) "page") = none := by decide
    simp [ApiFeatures.pagination, habs, hone]
  · have habc : jsNumOfParam (lookupJ (pageQS "abc") "page") = none := by decide
    simp [ApiFeatures.pagination, habc, hone]
  · have h0 : jsNumOfParam (lookupJ (pageQS "0") "page") = some 0 := by decide
    simp [ApiFeatures.pagination, h0, hone]
  · rw [show ((ApiFeatures.mk emptyQuery (pageQS "1")).pagination 8).query.qskip
        = some (8 * ((1:ℚ) - 1)) by simp [ApiFeatures.pagination, hone]]
    norm_num

/-- Witness for the amended C6 exercising the hypotheses of its general
parts: page "3" at size 5, page "0" at size 8, and a missing page key at
size 8. -/
theorem C6_pagination_offset_and_default_witness :
    ((ApiFeatures.mk emptyQuery (pageQS "3")).pagination 5).query.qlimit = some 5
    ∧ ((ApiFeatures.mk emptyQuery (pageQS "0")).pagination 8).query
        = ((ApiFeatures.mk emptyQuery (pageQS "1")).pagination 8).query
    ∧ ((ApiFeatures.mk emptyQuery []).pagination 8).query
        = ((ApiFeatures.mk emptyQuery (pageQS "1")).pagination 8).query := by
  refine ⟨(C6_pagination_offset_and_default.1 5 emptyQuery (pageQS "3") "3" 3 rfl
      (by decide) (by norm_num)).2,
    C6_pagination_offset_and_default.2.1 8 emptyQuery (pageQS "0") "0" rfl (by decide),
    C6_pagination_offset_and_default.2.2.1 8 emptyQuery [] (by decide)⟩

/- ===================== C5 ===================== -/

/-- The replacement callback either keeps a word or returns it with a dollar
in front. -/
theorem rewriteWordToken_eq_or_dollar (w : String) :
    (rewriteWordToken w).data = w.data ∨ '$' ∈ (rewriteWordToken w).data := by
  unfold rewriteWordToken
  split
  · right
    simp [String.data_append]
  · left
    rfl

/-- The word rewrite either leaves the character list unchanged or introduces
a dollar sign. -/
theorem rewriteAux_eq_or_dollar (cs : List Char) : ∀ run : List Char,
    rewriteAux run cs = run.reverse ++ cs ∨ '$' ∈ rewriteAux run cs := by
  induction cs with
  | nil =>
    intro run
    rcases rewriteWordToken_eq_or_dollar (String.mk run.reverse) with h | h
    · left
      simpa [rewriteAux] using h
    · right
      simpa [rewriteAux] using h
  | cons c cs ih =>
    intro run
    by_cases hw : isWordChar c = true
    · rcases ih (c :: run) with h | h
      · left
        simp only [rewriteAux, hw, if_true]
        rw [h]
        simp
      · right
        simp only [rewriteAux, hw, if_true]
        exact h
    · simp only [rewriteAux, hw, if_false]
      rcases rewriteWordToken_eq_or_dollar (String.mk run.reverse) with h1 | h1
      · rcases ih [] with h2 | h2
        · left
          rw [h1, h2]
          simp
        · right
          simp [h2]
      · right
        simp [h1]

/-- A string is either untouched by the gt/gte/lt/lte word rewrite or gains a
dollar sign. -/
theorem rewriteStr_eq_or_dollar (s : String) :
    rewriteStr s = s ∨ '$' ∈ (rewriteStr s).data := by
  rcases rewriteAux_eq_or_dollar s.data [] with h | h
  · left
    simp only [rewriteStr, h, List.reverse_nil, List.nil_append]
  · right
    simpa [rewriteStr] using h

/-- A dollar-free string can only be a key of the filter() condition if it was
itself a non-reserved key of the parameters. -/
theorem mem_keys_filterCond (qs : List (String × JVal)) (k : String)
    (hd : '$' ∉ k.data) (hmem : k ∈ (filterCond qs).map Prod.fst) :
    ∃ kv ∈ qs, kv.1 = k ∧ (removeFields.contains kv.1) = false := by
  simp only [filterCond, List.map_map, List.mem_map, List.mem_filter,
    Function.comp] at hmem
  obtain ⟨kv, ⟨hin, hnot⟩, heq⟩ := hmem
  rcases rewriteStr_eq_or_dollar kv.1 with h | h
  · rw [h] at heq
    exact ⟨kv, hin, heq, by simpa using hnot⟩
  · rw [heq] at h
    exact absurd h hd

/-- Counterexample to C5: a parameter mapping with the top-level key gt (a
non-reserved key) produces a condition whose only key is the rewritten $gt —
the mapping's own key gt does not appear. -/
theorem C5_counterexample_gt_key :
    (filterCond [("gt", JVal.str "5")]).map Prod.fst = ["$gt"]
    ∧ "gt" ∉ (filterCond [("gt", JVal.str "5")]).map Prod.fst := by
  constructor
  · decide
  · decide

/-- C5 amended: the condition's keys are exactly the images of the mapping's
non-reserved top-level keys under the gt/gte/lt/lte word rewrite (so any key
not containing one of those bare words — in particular any ordinary field
name — passes through unchanged, while a key such as gt itself is renamed to
$gt); keyword, page and limit never appear as condition keys; and if no key
remains after removing the reserved ones, the condition is empty and the
query's matching set is unchanged. -/
theorem C5_amended_filter_keys (qs : List (String × JVal)) :
    ((filterCond qs).map Prod.fst
        = ((qs.filter fun kv => !(removeFields.contains kv.1)).map Prod.fst).map rewriteStr)
    ∧ "keyword" ∉ (filterCond qs).map Prod.fst
    ∧ "page" ∉ (filterCond qs).map Prod.fst
    ∧ "limit" ∉ (filterCond qs).map Prod.fst
    ∧ (∀ k : String, rewriteStr k = k ∨ '$' ∈ (rewriteStr k).data)
    ∧ ((qs.filter fun kv => !(removeFields.contains kv.1)) = [] →
        filterCond qs = [] ∧ ∀ (mq : MongoQuery) (d : List (String × BVal)),
          queryMatches ((ApiFeatures.mk mq qs).filter).query d = queryMatches mq d) := by
  refine ⟨?_, ?_, ?_, ?_, rewriteStr_eq_or_dollar, ?_⟩
  · simp [filterCond, List.map_map, Function.comp]
  · intro hmem
    obtain ⟨kv, _, heq, hnot⟩ := mem_keys_filterCond qs "keyword" (by decide) hmem
    rw [heq] at hnot
    exact absurd hnot (by decide)
  · intro hmem
    obtain ⟨kv, _, heq, hnot⟩ := mem_keys_filterCond qs "page" (by decide) hmem
    rw [heq] at hnot
    exact absurd hnot (by decide)
  · intro hmem
    obtain ⟨kv, _, heq, hnot⟩ := mem_keys_filterCond qs "limit" (by decide) hmem
    rw [heq] at hnot
    exact absurd hnot (by decide)
  · intro hempty
    have hc : filterCond qs = [] := by
      rw [filterCond, hempty]
      rfl
    refine ⟨hc, ?_⟩
    intro mq d
    simp [ApiFeatures.filter, queryMatches, hc, matchCond]

/-- Witness for the amended C5: a mapping holding only reserved keys yields an
empty condition and leaves the matching of a sample document unchanged. -/
theorem C5_amended_filter_keys_witness :
    filterCond [("page", JVal.str "2"), ("limit", JVal.str "10")] = []
    ∧ queryMatches ((ApiFeatures.mk emptyQuery
          [("page", JVal.str "2"), ("limit", JVal.str "10")]).filter).query
        [("price", BVal.num 7)]
      = queryMatches emptyQuery [("price", BVal.num 7)]
    ∧ "page" ∉ (filterCond [("page", JVal.str "2"), ("limit", JVal.str "10")]).map Prod.fst := by
  have h := C5_amended_filter_keys [("page", JVal.str "2"), ("limit", JVal.str "10")]
  have h2 := h.2.2.2.2.2 (by decide)
  exact ⟨h2.1, h2.2 emptyQuery [("price", BVal.num 7)], h.2.2.1⟩

/- ===================== C3 ===================== -/

/-- The decoded parameters price[gte]=100, price[lte]=500. -/
def priceRangeQS : List (String × JVal) :=
  [("price", JVal.obj [("gte", "100"), ("lte", "500")])]

/-- A product document with the given price. -/
def docPrice (q : ℚ) : List (String × BVal) := [("price", BVal.num q)]

/-- The rewrite turns the bracket keys gte and lte of the price parameter into
the $-operators and leaves the bounds alone. -/
theorem filterCond_priceRangeQS :
    filterCond priceRangeQS
      = [("price", JVal.obj [("$gte", "100"), ("$lte", "500")])] := by
  decide

/-- The rewritten range condition on price holds for a document exactly when
its price lies between the two parsed bounds. -/
theorem matchCond_priceRange (q : ℚ) :
    matchCond (filterCond priceRangeQS) (docPrice q)
      = (decide ((100:ℚ) ≤ q) && decide (q ≤ (500:ℚ))) := by
  rw [filterCond_priceRangeQS]
  have h100 : jsParseNum "100" = some 100 := by decide
  have h500 : jsParseNum "500" = some 500 := by decide
  have hid : isDollarKey "$gte" = true := by decide
  simp [matchCond, docPrice, lookupField, matchVal, evalOp, hid, h100, h500]

/-- C3: filter() on the parameters price[gte]=100, price[lte]=500 narrows the
matching set exactly to the documents priced between 100 and 500; a price of
99 is excluded, 100 and 500 are included, 501 is excluded. -/
theorem C3_price_range_rewrite :
    (∀ (mq : MongoQuery) (q : ℚ),
      queryMatches ((ApiFeatures.mk mq priceRangeQS).filter).query (docPrice q) = true
        ↔ (queryMatches mq (docPrice q) = true ∧ 100 ≤ q ∧ q ≤ 500))
    ∧ queryMatches ((ApiFeatures.mk emptyQuery priceRangeQS).filter).query (docPrice 99) = false
    ∧ queryMatches ((ApiFeatures.mk emptyQuery priceRangeQS).filter).query (docPrice 100) = true
    ∧ queryMatches ((ApiFeatures.mk emptyQuery priceRangeQS).filter).query (docPrice 500) = true
    ∧ queryMatches ((ApiFeatures.mk emptyQuery priceRangeQS).filter).query (docPrice 501) = false := by
  have hgen : ∀ (mq : MongoQuery) (q : ℚ),
      queryMatches ((ApiFeatures.mk mq priceRangeQS).filter).query (docPrice q) = true
        ↔ (queryMatches mq (docPrice q) = true ∧ 100 ≤ q ∧ q ≤ 500) := by
    intro mq q
    simp [ApiFeatures.filter, queryMatches, List.all_append, matchCond_priceRange,
      and_assoc]
  have hempty : ∀ q : ℚ, queryMatches emptyQuery (docPrice q) = true := fun q => rfl
  refine ⟨hgen, ?_, ?_, ?_, ?_⟩
  · rw [← Bool.not_eq_true]
    intro h
    have := ((hgen emptyQuery 99).mp h).2.1
    norm_num at this
  · exact (hgen emptyQuery 100).mpr ⟨hempty 100, by norm_num, by norm_num⟩
  · exact (hgen emptyQuery 500).mpr ⟨hempty 500, by norm_num, by norm_num⟩
  · rw [← Bool.not_eq_true]
    intro h
    have := ((hgen emptyQuery 501).mp h).2.2
    norm_num at this

/- ===================== C7 ===================== -/

/-- On a dot-free keyword, anchored pattern matching is the case-insensitive
prefix test. -/
theorem matchHere_lit : ∀ (kw : List Char), '.' ∉ kw → ∀ cs : List Char,
    matchHere true (kw.map fun c => if c = '.' then PatTok.dot else PatTok.lit c) cs
      = beginsWithCI kw cs := by
  intro kw
  induction kw with
  | nil =>
    intro _ cs
    rfl
  | cons a as ih =>
    intro hdot cs
    have ha : ¬ a = '.' := fun h => hdot (by rw [h]; exact List.mem_cons_self _ _)
    have has : '.' ∉ as := fun h => hdot (List.mem_cons_of_mem _ h)
    cases cs with
    | nil => rfl
    | cons b bs =>
      simp [matchHere, beginsWithCI, ha, tokMatch, ih has bs]

/-- On a dot-free keyword, unanchored pattern search is the case-insensitive
substring test. -/
theorem regexFind_lit (kw : List Char) (hdot : '.' ∉ kw) : ∀ s : List Char,
    regexFind true (kw.map fun c => if c = '.' then PatTok.dot else PatTok.lit c) s
      = containsCI kw s := by
  intro s
  induction s with
  | nil => simp [regexFind, containsCI, matchHere_lit kw hdot]
  | cons b bs ih => simp [regexFind, containsCI, matchHere_lit kw hdot, ih]

/-- The case-insensitive prefix test holds exactly when the lowered text
extends the lowered keyword. -/
theorem beginsWithCI_iff : ∀ (kw s : List Char),
    beginsWithCI kw s = true ↔ ∃ t, s.map Char.toLower = kw.map Char.toLower ++ t := by
  intro kw
  induction kw with
  | nil =>
    intro s
    simp [beginsWithCI]
  | cons a as ih =>
    intro s
    cases s with
    | nil => simp [beginsWithCI]
    | cons b bs =>
      constructor
      · intro h
        simp only [beginsWithCI, Bool.and_eq_true, beq_iff_eq] at h
        obtain ⟨hab, h2⟩ := h
        obtain ⟨t, ht⟩ := (ih bs).mp h2
        exact ⟨t, by simp [ht, hab]⟩
      · rintro ⟨t, ht⟩
        simp only [List.map_cons, List.cons_append, List.cons.injEq] at ht
        obtain ⟨hab, h2⟩ := ht
        simp only [beginsWithCI, Bool.and_eq_true, beq_iff_eq]
        exact ⟨hab.symm, (ih bs).mpr ⟨t, h2⟩⟩

/-- The case-insensitive substring test holds exactly when the lowered keyword
occurs contiguously inside the lowered text. -/
theorem containsCI_iff (kw : List Char) : ∀ s : List Char,
    containsCI kw s = true
      ↔ ∃ pre post, s.map Char.toLower = pre ++ kw.map Char.toLower ++ post := by
  intro s
  induction s with
  | nil =>
    simp only [containsCI, beginsWithCI_iff]
    constructor
    · rintro ⟨t, ht⟩
      exact ⟨[], t, by simpa using ht⟩
    · rintro ⟨pre, post, h⟩
      simp only [List.map_nil] at h
      rcases List.append_eq_nil.mp h.symm with ⟨h1, h2⟩
      rcases List.append_eq_nil.mp h1 with ⟨h3, h4⟩
      exact ⟨post, by simp [List.map_eq_nil_iff.mp h4, h2]⟩
  | cons b bs ih =>
    simp only [containsCI, Bool.or_eq_true, beginsWithCI_iff, ih]
    constructor
    · rintro (⟨t, ht⟩ | ⟨pre, post, h⟩)
      · exact ⟨[], t, by simpa using ht⟩
      · exact ⟨b.toLower :: pre, post, by simp [h]⟩
    · rintro ⟨pre, post, h⟩
      cases pre with
      | nil => exact Or.inl ⟨post, by simpa using h⟩
      | cons p ps =>
        simp only [List.map_cons, List.cons_append, List.cons.injEq] at h
        exact Or.inr ⟨ps, post, h.2⟩

/-- The regex condition built by search() matches a document exactly when the
unanchored case-insensitive pattern search succeeds on its name field. -/
theorem matchCond_searchCond (kw nm : String) (d : List (String × BVal))
    (hname : lookupField d "name" = some (BVal.bstr nm)) :
    matchCond [("name", JVal.obj [("$regex", kw), ("$options", "i")])] d
      = regexFind true (parsePat kw) nm.data := by
  have hid : isDollarKey "$regex" = true := by decide
  have hci : hasCIOption [("$regex", kw), ("$options", "i")] = true := by
    have hne : ¬ ("$regex" : String) = "$options" := by decide
    simp [hasCIOption, lookupS, hne]
  have hopts : evalOp (BVal.bstr nm) [("$regex", kw), ("$options", "i")] "$options" "i"
      = true := by
    simp [evalOp]
  have hregex : evalOp (BVal.bstr nm) [("$regex", kw), ("$options", "i")] "$regex" kw
      = regexFind true (parsePat kw) nm.data := by
    have hne : ¬ ("$regex" : String) = "$options" := by decide
    simp [evalOp, hne, hci]
  simp [matchCond, hname, matchVal, hid, hregex, hopts]

/-- Counterexample to C7: the keyword "a.c" is fed to the store as a regex, so
the search condition matches a product named "abc", although "a.c" does not
occur case-insensitively as a substring of "abc". -/
theorem C7_counterexample_regex_dot :
    queryMatches ((ApiFeatures.mk emptyQuery [("keyword", JVal.str "a.c")]).search).query
        [("name", BVal.bstr "abc")] = true
    ∧ ¬ ∃ pre post, ("abc").data.map Char.toLower
        = pre ++ ("a.c").data.map Char.toLower ++ post := by
  constructor
  · decide
  · rintro ⟨pre, post, h⟩
    have hm : ("a.c").data.map Char.toLower = ['a', '.', 'c'] := by decide
    have habc : ("abc").data.map Char.toLower = ['a', 'b', 'c'] := by decide
    rw [hm, habc] at h
    have : '.' ∈ (['a', 'b', 'c'] : List Char) := by
      rw [h]
      simp
    simp at this

/-- C7 amended: a present non-empty keyword is interpreted as a
case-insensitive unanchored regular-expression pattern on the name field: a
keyword containing no regex metacharacter narrows the query exactly to the
names containing the keyword case-insensitively as a substring, while a
keyword containing a metacharacter is pattern syntax — for instance "a.c"
also matches names like "abc" that do not contain it; an absent keyword
applies no narrowing at all. -/
theorem C7_amended_search_regex :
    (∀ (qs : List (String × JVal)) (mq : MongoQuery) (kw : String)
        (d : List (String × BVal)) (nm : String),
      lookupJ qs "keyword" = some (JVal.str kw) → ¬ kw = "" →
      (∀ c ∈ kw.data, c ∉ regexMetachars) →
      lookupField d "name" = some (BVal.bstr nm) →
      (queryMatches ((ApiFeatures.mk mq qs).search).query d = true
        ↔ (queryMatches mq d = true
            ∧ ∃ pre post, nm.data.map Char.toLower
                = pre ++ kw.data.map Char.toLower ++ post)))
    ∧ (∀ (qs : List (String × JVal)) (mq : MongoQuery) (d : List (String × BVal)),
        lookupJ qs "keyword" = none →
        queryMatches ((ApiFeatures.mk mq qs).search).query d = queryMatches mq d) := by
  constructor
  · intro qs mq kw d nm hkw hne hmeta hname
    have hdot : '.' ∉ kw.data := fun h => hmeta '.' h (by decide)
    have hm := matchCond_searchCond kw nm d hname
    have h1 : queryMatches ((ApiFeatures.mk mq qs).search).query d
        = (queryMatches mq d && containsCI kw.data nm.data) := by
      rw [show parsePat kw = kw.data.map fun c =>
          if c = '.' then PatTok.dot else PatTok.lit c from rfl,
        regexFind_lit kw.data hdot nm.data] at hm
      simp [ApiFeatures.search, hkw, hne, queryMatches, List.all_append, hm]
    rw [h1]
    simp [Bool.and_eq_true, containsCI_iff]
  · intro qs mq d hkw
    simp [ApiFeatures.search, hkw, queryMatches, List.all_append, matchCond]

/-- Witness for the amended C7: keyword "widget" (and, case-insensitively,
"WIDGET") matches the product named "Blue Widget", and an absent keyword
leaves matching untouched. -/
theorem C7_amended_search_regex_witness :
    queryMatches ((ApiFeatures.mk emptyQuery [("keyword", JVal.str "widget")]).search).query
        [("name", BVal.bstr "Blue Widget")] = true
    ∧ queryMatches ((ApiFeatures.mk emptyQuery [("keyword", JVal.str "WIDGET")]).search).query
        [("name", BVal.bstr "Blue Widget")] = true
    ∧ queryMatches ((ApiFeatures.mk emptyQuery []).search).query
        [("name", BVal.bstr "Blue Widget")]
      = queryMatches emptyQuery [("name", BVal.bstr "Blue Widget")] := by
  refine ⟨?_, ?_, C7_amended_search_regex.2 [] emptyQuery [("name", BVal.bstr "Blue Widget")] rfl⟩
  · exact (C7_amended_search_regex.1 [("keyword", JVal.str "widget")] emptyQuery "widget"
        [("name", BVal.bstr "Blue Widget")] "Blue Widget" rfl (by decide) (by decide) rfl).mpr
      ⟨rfl, "blue ".data, [], by decide⟩
  · exact (C7_amended_search_regex.1 [("keyword", JVal.str "WIDGET")] emptyQuery "WIDGET"
        [("name", BVal.bstr "Blue Widget")] "Blue Widget" rfl (by decide) (by decide) rfl).mpr
      ⟨rfl, "blue ".data, [], by decide⟩

/- ===================== C10 ===================== -/

/-- A JsVal-level product: user 1 rated 5 and user 2 rated 4, both stored as
numbers. -/
def jsProdTwo : JsProduct :=
  { reviews := [{ user := 1, name := "u1", rating := JsVal.num 5, comment := "a" },
                { user := 2, name := "u2", rating := JsVal.num 4, comment := "b" }],
    ratings := JsVal.num (9 / 2), numOfReviews := 2 }

/-- The numeric value held by a stored rating. -/
def numVal : JsVal → ℚ
  | JsVal.num q => q
  | _ => 0

/-- Accumulating += over a list of numerically stored ratings is numeric
addition. -/
theorem foldl_jsAdd_num (l : List JsReview) (a : ℚ)
    (hnum : ∀ rev ∈ l, ∃ x, rev.rating = JsVal.num x) :
    l.foldl (fun acc rev => jsAdd acc rev.rating) (JsVal.num a)
      = JsVal.num (a + (l.map fun rev => numVal rev.rating).sum) := by
  induction l generalizing a with
  | nil => simp
  | cons hd tl ih =>
    obtain ⟨x, hx⟩ := hnum hd (List.mem_cons_self _ _)
    have htl : ∀ rev ∈ tl, ∃ y, rev.rating = JsVal.num y :=
      fun rev h => hnum rev (List.mem_cons_of_mem _ h)
    have hstep : jsAdd (JsVal.num a) hd.rating = JsVal.num (a + x) := by
      rw [hx]
      simp [jsAdd]
    simp only [List.foldl_cons]
    rw [hstep, ih (a + x) htl]
    simp [numVal, hx, add_assoc]

/-- The recomputed rating of the upsert is the += accumulation over the
resulting list divided by its length. -/
theorem createProductReviewJs_ratings (userId : Nat) (userName : String)
    (rating : JsVal) (comment : String) (p : JsProduct) :
    (createProductReviewJs userId userName rating comment p).ratings
      = jsDiv ((createProductReviewJs userId userName rating comment p).reviews.foldl
          (fun acc rev => jsAdd acc rev.rating) (JsVal.num 0))
        (createProductReviewJs userId userName rating comment p).reviews.length := rfl

/-- Counterexample to C10: at the claim's own exemplar input — updating user
2's review on the 5-and-4 product with the rating string "2" — the updated
entry holds the cast number 2, not the uncoerced string, and the recomputed
rating is 7/2, exactly the arithmetic mean of the intended numeric ratings 5
and 2 (the claim predicts a stored string and an average differing from the
mean). -/
theorem C10_counterexample_cast_on_update :
    ((createProductReviewJs 2 "u2" (JsVal.vstr "2") "c" jsProdTwo).reviews.map JsReview.rating
        = [JsVal.num 5, JsVal.num 2])
    ∧ (createProductReviewJs 2 "u2" (JsVal.vstr "2") "c" jsProdTwo).ratings
        = JsVal.num (7 / 2)
    ∧ meanQ [5, 2] = 7 / 2 := by
  have h2 : jsToNum (JsVal.vstr "2") = JsVal.num 2 := by decide
  refine ⟨by decide, ?_, by norm_num [meanQ]⟩
  have h1 : (createProductReviewJs 2 "u2" (JsVal.vstr "2") "c" jsProdTwo).ratings
      = jsDiv (jsAdd (jsAdd (JsVal.num 0) (JsVal.num 5)) (jsToNum (JsVal.vstr "2"))) 2 := rfl
  rw [h1, h2]
  have h3 : jsAdd (JsVal.num 0) (JsVal.num 5) = JsVal.num 5 := by simp [jsAdd]
  rw [h3]
  have h4 : jsAdd (JsVal.num 5) (JsVal.num 2) = JsVal.num 7 := by
    simp [jsAdd]
    norm_num
  rw [h4]
  simp [jsDiv, jsToNum]

/-- C10 amended: the controller's two paths look asymmetric in the source —
the push stores Number(rating) while the update branch assigns the raw
request value — but the mapper's schema cast on the Number-typed rating path
coerces the assigned value too, so for every rating input that parses as a
number and every product whose stored ratings are numeric, the submitting
user's entry ends up holding the cast number on either path, every stored
rating stays numeric, and the recomputed rating is the exact arithmetic mean
of the stored numeric ratings — the corrupted concatenated average never
occurs. -/
theorem C10_amended_cast_makes_paths_agree (userId : Nat) (userName : String)
    (s : String) (q : ℚ) (comment : String) (p : JsProduct)
    (hq : jsParseNum s = some q)
    (hnum : ∀ rev ∈ p.reviews, ∃ x, rev.rating = JsVal.num x) :
    (∀ rev ∈ (createProductReviewJs userId userName (JsVal.vstr s) comment p).reviews,
        rev.user = userId → rev.rating = JsVal.num q)
    ∧ (∀ rev ∈ (createProductReviewJs userId userName (JsVal.vstr s) comment p).reviews,
        ∃ x, rev.rating = JsVal.num x)
    ∧ (createProductReviewJs userId userName (JsVal.vstr s) comment p).ratings
        = JsVal.num (meanQ
            ((createProductReviewJs userId userName (JsVal.vstr s) comment p).reviews.map
              fun rev => numVal rev.rating)) := by
  have hcast : jsToNum (JsVal.vstr s) = JsVal.num q := by simp [jsToNum, hq]
  have hnum2 : ∀ rev ∈ (createProductReviewJs userId userName (JsVal.vstr s) comment p).reviews,
      ∃ x, rev.rating = JsVal.num x := by
    intro rev hmem
    by_cases hR : (p.reviews.any fun rv => rv.user == userId) = true
    · simp only [createProductReviewJs, hR, if_true, List.mem_map] at hmem
      obtain ⟨orig, hor, heq⟩ := hmem
      by_cases ho : (orig.user == userId) = true
      · exact ⟨q, by rw [← heq]; simp [updUserJs, ho, hcast]⟩
      · obtain ⟨x, hx⟩ := hnum orig hor
        exact ⟨x, by rw [← heq]; simp [updUserJs, ho, hx]⟩
    · simp [createProductReviewJs, hR] at hmem
      rcases hmem with hm | hm
      · exact hnum rev hm
      · exact ⟨q, by rw [hm]; simp [hcast]⟩
  refine ⟨?_, hnum2, ?_⟩
  · intro rev hmem hu
    by_cases hR : (p.reviews.any fun rv => rv.user == userId) = true
    · simp only [createProductReviewJs, hR, if_true, List.mem_map] at hmem
      obtain ⟨orig, hor, heq⟩ := hmem
      by_cases ho : (orig.user == userId) = true
      · rw [← heq]
        simp [updUserJs, ho, hcast]
      · exfalso
        rw [← heq] at hu
        simp only [updUserJs, ho, if_false] at hu
        exact absurd (by simpa using hu) (by simpa using ho)
    · simp [createProductReviewJs, hR] at hmem
      rcases hmem with hm | hm
      · exfalso
        exact hR (List.any_eq_true.mpr ⟨rev, hm, by simpa using hu⟩)
      · rw [hm]
        simp [hcast]
  · rw [createProductReviewJs_ratings, foldl_jsAdd_num _ 0 hnum2]
    simp [jsDiv, jsToNum, meanQ]

/-- Witness for the amended C10: updating user 2's review of the 5-and-4
product with the rating string "2" yields a stored rating equal to the mean
of the stored numeric values. -/
theorem C10_amended_cast_makes_paths_agree_witness :
    (createProductReviewJs 2 "u2" (JsVal.vstr "2") "x" jsProdTwo).ratings
      = JsVal.num (meanQ
          ((createProductReviewJs 2 "u2" (JsVal.vstr "2") "x" jsProdTwo).reviews.map
            fun rev => numVal rev.rating)) := by
  have hnum : ∀ rev ∈ jsProdTwo.reviews, ∃ x, rev.rating = JsVal.num x := by
    intro rev h
    simp [jsProdTwo] at h
    rcases h with h | h
    · exact ⟨5, by rw [h]⟩
    · exact ⟨4, by rw [h]⟩
  exact (C10_amended_cast_makes_paths_agree 2 "u2" "2" 2 "x" jsProdTwo
    (by decide) hnum).2.2
